import Mathlib

/-!
Verification development for the `co-deployer` deployment tool
(`co-deployer/co-deployer.py`).  The Python source is shallowly embedded:

* filesystem trees are modelled twice, at the granularity each function
  needs: the staging step (`create_tmp_file_structure`) works through
  path queries (`os.path.isfile` / `os.path.isdir` / `os.remove` /
  `shutil.rmtree`), so the staging area is a finite list of
  `(path, isFile)` entries; the uploaders (`sftp_upload` / `ftp_upload`)
  walk a directory tree recursively (`os.listdir`), so the local tree is
  a rose tree `FSTree`;
* network and shell failures are injected through explicit fault
  parameters (a `Bool` per operation kind, or a `path → Bool` map for
  per-item remote operations); an operation whose Python counterpart
  raises an exception that the source catches is modelled by recording
  the failure and continuing, while an uncaught exception makes the
  modelled function return with a `raised` flag (or `none` where the
  source calls `sys.exit`);
* Python truthiness of optional strings / ints (`x or y`) is modelled
  explicitly: `None` and `""` (resp. `0`) select the fallback.
-/

/-! ### Paths and the staging area (`create_tmp_file_structure`, lines 449-469) -/

/-- A filesystem path, as its list of components. -/
abbrev FSPath := List String

/-- The content of the staging directory: one entry per filesystem object,
`true` marks a regular file, `false` a directory.  This is the view the
staging code has of the copied tree: it only queries paths with
`os.path.isfile` / `os.path.isdir` and deletes with `os.remove` /
`shutil.rmtree`. -/
abbrev FS := List (FSPath × Bool)

/-- Model of `os.path.isfile(tmp_dir/p)` on the staging copy. -/
def isfile (fs : FS) (p : FSPath) : Bool :=
  fs.any (fun e => e.1 == p && e.2)

/-- Model of `os.path.isdir(tmp_dir/p)` on the staging copy. -/
def isdir (fs : FS) (p : FSPath) : Bool :=
  fs.any (fun e => e.1 == p && !e.2)

/-- One iteration of the exclusion loop of `create_tmp_file_structure`:
a file is deleted with `os.remove`, a directory (and everything below it)
with `shutil.rmtree`, a missing path is silently skipped. -/
def removeExcluded (fs : FS) (p : FSPath) : FS :=
  if isfile fs p then fs.filter (fun e => !(e.1 == p))
  else if isdir fs p then fs.filter (fun e => !(p.isPrefixOf e.1))
  else fs

/-- Model of `create_tmp_file_structure(localpath, exclude)`: copy the source tree
(`shutil.copytree`; `none` stands for a source path that does not exist or
a copy that raised, upon which the source prints and calls `sys.exit(1)`,
modelled by returning `none`), then drop every excluded path. -/
def create_tmp_file_structure (src : Option FS) (exclude : List FSPath) : Option FS :=
  match src with
  | none => none
  | some fs => some (exclude.foldl removeExcluded fs)

/-- Well-formedness of a staging-area listing, true of any real directory
tree: paths are unique and nonempty, every proper nonempty prefix of an
entry is itself listed as a directory, and files have no entries below
them. -/
def wfFS (fs : FS) : Prop :=
  (fs.map Prod.fst).Nodup ∧
  (∀ e ∈ fs, e.1 ≠ []) ∧
  (∀ e ∈ fs, ∀ n, n < e.1.length → 0 < n → (e.1.take n, false) ∈ fs) ∧
  (∀ e ∈ fs, e.2 = true → ∀ e2 ∈ fs, e.1 <+: e2.1 → e2 = e)

instance (fs : FS) : Decidable (wfFS fs) := by
  unfold wfFS
  infer_instance

/-! ### Credential resolution (`build_protocol_dict`, lines 269-278) -/

/-- A protocol-specific credential block of a host (`host["ftp"]` etc.).
The fields are the keys `build_protocol_dict` reads from it. -/
structure CredSet where
  hostname : Option String
  username : Option String
  password : Option String
  port : Option Nat
deriving DecidableEq

def emptyCred : CredSet := ⟨none, none, none, none⟩

/-- A host entry of the configuration. -/
structure Host where
  name : String
  hostname : String
  username : Option String
  password : Option String
  port : Option Nat
  ftp : Option CredSet
  sftp : Option CredSet
  ssh : Option CredSet
deriving DecidableEq

/-- Python `x or y` on optional strings: `None` and `""` are falsy. -/
def pyOrStr : Option String → Option String → Option String
  | some s, y => if s = "" then y else some s
  | none, y => y

/-- Python `x or y` on optional ints: `None` and `0` are falsy. -/
def pyOrNat : Option Nat → Option Nat → Option Nat
  | some n, y => if n = 0 then y else some n
  | none, y => y

/-- Model of `host.get(protocol) or \x7b\x7d`. -/
def credFor (host : Host) (protocol : String) : CredSet :=
  (if protocol == "ssh" then host.ssh
   else if protocol == "ftp" then host.ftp
   else if protocol == "sftp" then host.sftp
   else none).getD emptyCred

/-- The connection parameters `build_protocol_dict` returns. -/
structure ProtoConfig where
  hostname : Option String
  username : Option String
  password : Option String
  port : Nat
deriving DecidableEq

/-- Model of `build_protocol_dict(host, protocol)`.  The port line keeps Python's
operator precedence: the conditional expression binds looser than `or`,
so the whole fallback chain `protocol_dict.get("port") or
host.get("port") or ssh_port` is the `if protocol == "ssh"` branch, and
the other branches are the bare constants `sftp_port` / `ftp_port`. -/
def build_protocol_dict (host : Host) (protocol : String) : ProtoConfig :=
  let protocol_dict := credFor host protocol
  let port : Nat :=
    if protocol == "ssh" then
      (pyOrNat (pyOrNat protocol_dict.port host.port) (some 22)).getD 22
    else if protocol == "sftp" then 22
    else 21
  ⟨pyOrStr protocol_dict.hostname (some host.hostname),
   pyOrStr protocol_dict.username host.username,
   pyOrStr protocol_dict.password host.password,
   port⟩

/-- Modelled from the spec (claim wording): the port-resolution rule the
specification states — protocol-specific port when present, else the
host-level port, else the protocol default (22 for ssh and sftp, 21 for
ftp).  Compared against `build_protocol_dict`. -/
def claimResolvedPort (host : Host) (protocol : String) : Nat :=
  match (credFor host protocol).port with
  | some n => n
  | none =>
    match host.port with
    | some n => n
    | none => if protocol == "ftp" then 21 else 22

/-! ### Deployments and the config-to-dict builders (lines 134-161) -/

/-- The optional command bundle of a deployment (`deployment["cmd"]`). -/
structure CmdBundle where
  before : Option String
  after : Option String
  ssh_before : Option String
  ssh_after : Option String
deriving DecidableEq

def emptyCmd : CmdBundle := ⟨none, none, none, none⟩

/-- Python truthiness of an optional string (`if cmd.get("ssh_before"):`). -/
def truthy : Option String → Bool
  | none => false
  | some s => !(s == "")

/-- A deployment as written in the configuration: `host` is still the
name of a host. -/
structure RawDeployment where
  name : String
  host : String
  arg : String
  protocol : String
  remote_path : FSPath
  exclude : List FSPath
  cmd : Option CmdBundle
deriving DecidableEq

/-- A deployment after `build_deployments_dict` replaced the host name by
the host entry (`d["host"] = hosts[d["host"]]`). -/
structure Deployment where
  name : String
  host : Host
  arg : String
  protocol : String
  remote_path : FSPath
  exclude : List FSPath
  cmd : Option CmdBundle
deriving DecidableEq

def resolveDeployment (d : RawDeployment) (h : Host) : Deployment :=
  ⟨d.name, h, d.arg, d.protocol, d.remote_path, d.exclude, d.cmd⟩

/-- Model of `build_hosts_dict(config)`: index the host list by name
(`hosts[h["name"]] = h`, a later duplicate overwrites an earlier one). -/
def build_hosts_dict (hosts : List Host) : String → Option Host :=
  hosts.foldl (fun acc h => fun a => if a = h.name then some h else acc a) (fun _ => none)

/-- Model of `build_deployments_dict(config, hosts)`: walk the deployment list; a
deployment whose host name is not in the hosts dict makes the process
exit (`sys.exit(1)`, modelled by `none`); otherwise the host reference is
resolved and the deployment is stored under its `arg` key
(`deployments[d["arg"]] = d`, a later duplicate overwrites). -/
def build_deployments_dict :
    List RawDeployment → (String → Option Host) → (String → Option Deployment) →
    Option (String → Option Deployment)
  | [], _, acc => some acc
  | d :: rest, hosts, acc =>
    match hosts d.host with
    | none => none
    | some h =>
      build_deployments_dict rest hosts
        (fun a => if a = d.arg then some (resolveDeployment d h) else acc a)

/-! ### The uploaders (`sftp_upload` lines 385-414, `ftp_upload` lines 416-447) -/

/-- A local directory tree, as `os.listdir` exposes it to the uploaders:
a file, or a directory with an ordered list of named children. -/
inductive FSTree where
  | file (content : Nat)
  | dir (entries : List (String × FSTree))

/-- The set of directories existing on the remote host. -/
abbrev RemoteState := List FSPath

/-- A remote operation the uploaders attempt: storing a file
(`sftp.put` / `ftp.storbinary`) or creating a directory (`sftp.mkdir` /
`ftp.mkd`).  `ok = false` records an attempt that raised. -/
inductive Event where
  | put (p : FSPath) (ok : Bool)
  | mkdir (p : FSPath) (ok : Bool)
deriving DecidableEq

/-- Result of one uploader call: the remote operations attempted in
order, the remote directories existing afterwards, and whether the call
terminated with an uncaught exception. -/
structure UploadResult where
  events : List Event
  state : RemoteState
  raised : Bool
deriving DecidableEq

/-- Model of `remote_dir_exists_sftp(sftp, remote_dir)`: `sftp.stat` succeeds
exactly on an existing path, an `IOError` is caught and reported as
`False`. -/
def remote_dir_exists_sftp (s : RemoteState) (p : FSPath) : Bool :=
  s.contains p

/-- Model of `remote_dir_exists_ftp(ftp, remote_dir)`: `ftp.cwd` into the
directory and back succeeds exactly on an existing path, an
`ftplib.error_perm` is caught and reported as `False`. -/
def remote_dir_exists_ftp (s : RemoteState) (p : FSPath) : Bool :=
  s.contains p

mutual

/-- Model of `sftp_upload(sftp, local_dir, remote_dir)`: create the target
directory when `remote_dir` is truthy and missing (this `sftp.mkdir` is
not inside a `try`, so a failure propagates), then walk the listing.
`pf p` (resp. `mf p`) injects a failure into the store (resp. directory
creation) of remote path `p`.  Calling it on a file models
`os.listdir` raising. -/
def sftp_upload (pf mf : FSPath → Bool) : FSTree → FSPath → RemoteState → UploadResult
  | .file _, _, s => ⟨[], s, true⟩
  | .dir entries, rd, s =>
    if rd ≠ [] && !(remote_dir_exists_sftp s rd) then
      if mf rd then ⟨[Event.mkdir rd false], s, true⟩
      else
        let r := sftp_items pf mf entries rd (rd :: s)
        ⟨Event.mkdir rd true :: r.events, r.state, r.raised⟩
    else
      sftp_items pf mf entries rd s

/-- The `for item in os.listdir(local_dir)` body of `sftp_upload`: a
file store failure is caught and logged; a directory creation failure
(environmental, or the directory already existing) is caught and logged,
but the recursive `sftp_upload` call that follows is *not* inside the
`try`, so anything it raises propagates. -/
def sftp_items (pf mf : FSPath → Bool) :
    List (String × FSTree) → FSPath → RemoteState → UploadResult
  | [], _, s => ⟨[], s, false⟩
  | (name, .file _) :: rest, rd, s =>
    let p := rd ++ [name]
    let r := sftp_items pf mf rest rd s
    ⟨Event.put p (!pf p) :: r.events, r.state, r.raised⟩
  | (name, .dir es) :: rest, rd, s =>
    let p := rd ++ [name]
    let created := !remote_dir_exists_sftp s p && !mf p
    let s1 := if created then p :: s else s
    let rsub := sftp_upload pf mf (.dir es) p s1
    if rsub.raised then ⟨Event.mkdir p created :: rsub.events, rsub.state, true⟩
    else
      let r := sftp_items pf mf rest rd rsub.state
      ⟨Event.mkdir p created :: (rsub.events ++ r.events), r.state, r.raised⟩

end

mutual

/-- Model of `ftp_upload(ftp, local_dir, remote_dir)`: same shape as
`sftp_upload` with `ftp.storbinary` / `ftp.mkd` / `remote_dir_exists_ftp`;
the top-level `ftp.mkd` is likewise outside any `try`. -/
def ftp_upload (pf mf : FSPath → Bool) : FSTree → FSPath → RemoteState → UploadResult
  | .file _, _, s => ⟨[], s, true⟩
  | .dir entries, rd, s =>
    if rd ≠ [] && !(remote_dir_exists_ftp s rd) then
      if mf rd then ⟨[Event.mkdir rd false], s, true⟩
      else
        let r := ftp_items pf mf entries rd (rd :: s)
        ⟨Event.mkdir rd true :: r.events, r.state, r.raised⟩
    else
      ftp_items pf mf entries rd s

/-- The loop body of `ftp_upload`; per-item failures are caught, the
recursive `ftp_upload` call is outside the `try`. -/
def ftp_items (pf mf : FSPath → Bool) :
    List (String × FSTree) → FSPath → RemoteState → UploadResult
  | [], _, s => ⟨[], s, false⟩
  | (name, .file _) :: rest, rd, s =>
    let p := rd ++ [name]
    let r := ftp_items pf mf rest rd s
    ⟨Event.put p (!pf p) :: r.events, r.state, r.raised⟩
  | (name, .dir es) :: rest, rd, s =>
    let p := rd ++ [name]
    let created := !remote_dir_exists_ftp s p && !mf p
    let s1 := if created then p :: s else s
    let rsub := ftp_upload pf mf (.dir es) p s1
    if rsub.raised then ⟨Event.mkdir p created :: rsub.events, rsub.state, true⟩
    else
      let r := ftp_items pf mf rest rd rsub.state
      ⟨Event.mkdir p created :: (rsub.events ++ r.events), r.state, r.raised⟩

end

mutual

/-- The relative paths of the files of a local tree (a bare file is the
empty relative path). -/
def filePathsT : FSTree → List FSPath
  | .file _ => [[]]
  | .dir es => filePathsItems es

/-- The relative paths of the files below a directory listing. -/
def filePathsItems : List (String × FSTree) → List FSPath
  | [] => []
  | (n, t) :: rest => (filePathsT t).map (n :: ·) ++ filePathsItems rest

end

mutual

/-- The relative paths of the subdirectories of a local tree. -/
def dirPathsT : FSTree → List FSPath
  | .file _ => []
  | .dir es => dirPathsItems es

/-- The relative paths of the directories below a directory listing,
each directory listed before its own subdirectories. -/
def dirPathsItems : List (String × FSTree) → List FSPath
  | [] => []
  | (_, .file _) :: rest => dirPathsItems rest
  | (n, .dir es) :: rest =>
    [n] :: (dirPathsItems es).map (n :: ·) ++ dirPathsItems rest

end

/-! ### Connection teardown (`close_connections`, lines 244-267) -/

/-- A subset of the three transports {ssh, ftp, sftp}; used both for the
`opened_connections` dict of `deploy` and for the set of connections a
teardown managed to close. -/
structure ConnSet where
  ssh : Bool
  ftp : Bool
  sftp : Bool
deriving DecidableEq

def noConns : ConnSet := ⟨false, false, false⟩

/-- Which `close()` calls raise. -/
structure CloseFaults where
  ssh : Bool
  ftp : Bool
  sftp : Bool
deriving DecidableEq

/-- Model of `close_connections(opened_connections)`: a single `try` block closes
ssh, then ftp, then sftp; the first raising `close()` jumps to the
`except`, which logs and returns, so the remaining closes are skipped.
The result records which connections were actually closed. -/
def close_connections (opened : ConnSet) (cf : CloseFaults) : ConnSet :=
  if opened.ssh && cf.ssh then ⟨false, false, false⟩
  else if opened.ftp && cf.ftp then ⟨opened.ssh, false, false⟩
  else if opened.sftp && cf.sftp then ⟨opened.ssh, opened.ftp, false⟩
  else ⟨opened.ssh, opened.ftp, opened.sftp⟩

/-- Model of `remove_tmp_dir(tmp_dir)`: `shutil.rmtree` inside a `try`, a failure
is logged and swallowed.  Returns whether the staging directory is gone. -/
def remove_tmp_dir (rmFails : Bool) : Bool :=
  !rmFails

/-! ### The orchestrator (`deploy`, lines 310-383) -/

/-- Failure injection for one deployment run.  `beforeFails` /
`afterFails` make the local shell command raise (caught inside
`execute`); `sshBeforeFails` / `sshAfterFails` make `ssh_execute` raise
(not caught anywhere); `putFails` / `mkdirFails` are the per-remote-path
upload faults; the close and rmtree faults hit the teardown. -/
structure DeployFaults where
  beforeFails : Bool
  sshBeforeFails : Bool
  afterFails : Bool
  sshAfterFails : Bool
  putFails : FSPath → Bool
  mkdirFails : FSPath → Bool
  closeSshFails : Bool
  closeFtpFails : Bool
  closeSftpFails : Bool
  rmTmpFails : Bool

/-- The steps of one deployment run, as they appear in `deploy`. -/
inductive DStep where
  | stage
  | openConn (protocol : String)
  | preLocal
  | preRemote
  | transfer
  | postLocal
  | postRemote
  | closeConns
  | removeTmp
deriving DecidableEq

/-- Outcome of one `deploy(deployment)` call. -/
structure DeployResult where
  trace : List DStep
  opened : ConnSet
  closed : ConnSet
  tmpRemoved : Bool
  raised : Bool
deriving DecidableEq

/-- Model of `deploy(deployment)`.  `src` is the staged tree
(`create_tmp_file_structure`'s output; `none` if staging called
`sys.exit(1)`, which the model propagates as `none`).  The body follows
the source line by line: stage; open ssh when an ssh hook is truthy,
sftp when `protocol == "sftp"`, ftp when `protocol == "ftp"`; run the
truthy `before` hook (`execute` catches its own errors); run the truthy
`ssh_before` hook (`ssh_execute` raising propagates out of `deploy`,
skipping everything after it); upload; run `after`; run `ssh_after`
(again able to propagate); `close_connections`; `remove_tmp_dir`. -/
def deploy (d : Deployment) (src : Option FSTree) (flt : DeployFaults)
    (s0 : RemoteState) : Option DeployResult :=
  match src with
  | none => none
  | some tree =>
    let cmd := d.cmd.getD emptyCmd
    let opened : ConnSet :=
      ⟨truthy cmd.ssh_before || truthy cmd.ssh_after,
       d.protocol == "ftp", d.protocol == "sftp"⟩
    let t1 : List DStep :=
      [DStep.stage]
      ++ (if opened.ssh then [DStep.openConn "ssh"] else [])
      ++ (if opened.sftp then [DStep.openConn "sftp"] else [])
      ++ (if opened.ftp then [DStep.openConn "ftp"] else [])
      ++ (if truthy cmd.before then [DStep.preLocal] else [])
    if truthy cmd.ssh_before && flt.sshBeforeFails then
      some ⟨t1 ++ [DStep.preRemote], opened, noConns, false, true⟩
    else
      let t2 := t1 ++ (if truthy cmd.ssh_before then [DStep.preRemote] else [])
      let tr : Option UploadResult :=
        if d.protocol == "sftp" then
          some (sftp_upload flt.putFails flt.mkdirFails tree d.remote_path s0)
        else if d.protocol == "ftp" then
          some (ftp_upload flt.putFails flt.mkdirFails tree d.remote_path s0)
        else none
      let finish : List DStep → Option DeployResult := fun t3 =>
        let t4 := t3 ++ (if truthy cmd.after then [DStep.postLocal] else [])
        if truthy cmd.ssh_after && flt.sshAfterFails then
          some ⟨t4 ++ [DStep.postRemote], opened, noConns, false, true⟩
        else
          let t5 := t4 ++ (if truthy cmd.ssh_after then [DStep.postRemote] else [])
          let closed := close_connections opened
            ⟨flt.closeSshFails, flt.closeFtpFails, flt.closeSftpFails⟩
          some ⟨t5 ++ [DStep.closeConns, DStep.removeTmp], opened, closed,
                remove_tmp_dir flt.rmTmpFails, false⟩
      match tr with
      | none => finish t2
      | some r =>
        if r.raised then some ⟨t2 ++ [DStep.transfer], opened, noConns, false, true⟩
        else finish (t2 ++ [DStep.transfer])

/-- The `for d in to_deploy: deploy(d)` loop of `__main__`.  Returns the
names of the deployments that ran to completion and whether the process
was cut short (either a `sys.exit(1)` out of staging or an uncaught
exception out of `deploy`, both of which also abort every later
deployment). -/
def runBatch :
    List (Deployment × Option FSTree × DeployFaults × RemoteState) →
    List String × Bool
  | [] => ([], false)
  | (d, src, flt, s0) :: rest =>
    match deploy d src flt s0 with
    | none => ([], true)
    | some r =>
      if r.raised then ([], true)
      else
        let rec2 := runBatch rest
        (d.name :: rec2.1, rec2.2)

/-- Modelled from the spec (claim wording of C9): the fixed step order —
stage, open connections, local before-hook, SSH before-hook, protocol
upload, local after-hook, SSH after-hook, close connections, remove
staging directory — with each hook present exactly when its command is
configured and the transfer present exactly when the protocol has an
uploader. -/
def specDeploySequence (d : Deployment) : List DStep :=
  let cmd := d.cmd.getD emptyCmd
  [DStep.stage]
  ++ (if truthy cmd.ssh_before || truthy cmd.ssh_after then [DStep.openConn "ssh"] else [])
  ++ (if d.protocol == "sftp" then [DStep.openConn "sftp"] else [])
  ++ (if d.protocol == "ftp" then [DStep.openConn "ftp"] else [])
  ++ (if truthy cmd.before then [DStep.preLocal] else [])
  ++ (if truthy cmd.ssh_before then [DStep.preRemote] else [])
  ++ (if d.protocol == "sftp" || d.protocol == "ftp" then [DStep.transfer] else [])
  ++ (if truthy cmd.after then [DStep.postLocal] else [])
  ++ (if truthy cmd.ssh_after then [DStep.postRemote] else [])
  ++ [DStep.closeConns, DStep.removeTmp]

/-! ### Concrete configuration values used by witnesses and counterexamples -/

def hostProd : Host := ⟨"prod", "h1", some "u", some "p", none, none, none, none⟩

/-- A host whose sftp block carries an explicit port 2222. -/
def hostSftpPort : Host :=
  ⟨"h", "h1", none, none, none, none, some ⟨none, some "u", some "p", some 2222⟩, none⟩

/-- A host with an ssh block without a port, and no host-level port. -/
def hostSshNoPort : Host :=
  ⟨"h", "h1", some "u", some "p", none, none, none, some ⟨none, some "su", some "sp", none⟩⟩

/-! ### C2: `close_connections` and partial teardown -/

/-- C2 counterexample: with all three transports opened, a failing
`ssh.close()` is caught by the single surrounding `try`, but the FTP and
SFTP closes are skipped — contradicting the claim that they are still
closed. -/
theorem close_connections_skips_rest :
    (close_connections ⟨true, true, true⟩ ⟨true, false, false⟩).ftp = false ∧
    (close_connections ⟨true, true, true⟩ ⟨true, false, false⟩).sftp = false := by
  decide

/-- C2 (amended): `close_connections` closes the opened transports in
the order ssh, ftp, sftp and never propagates a close failure, but the
first failing close aborts the remaining closes: a transport is closed
exactly when it was opened, its own close does not fail, and no
earlier opened transport's close failed. -/
theorem close_connections_characterization
    (a b c d e f : Bool) :
    close_connections ⟨a, b, c⟩ ⟨d, e, f⟩ =
      ⟨a && !d,
       b && !(a && d) && !e,
       c && !(a && d) && !(b && e) && !f⟩ := by
  cases a <;> cases b <;> cases c <;> cases d <;> cases e <;> cases f <;> decide

/-! ### C4: credential and port fallback -/

/-- C4 counterexample: for a host whose sftp block sets port 2222,
`build_protocol_dict` resolves the sftp port to the constant default 22
instead of the configured 2222 (Python's conditional expression binds
looser than `or`, so the fallback chain only applies to the ssh branch). -/
theorem build_protocol_dict_ignores_sftp_port :
    (build_protocol_dict hostSftpPort "sftp").port ≠ claimResolvedPort hostSftpPort "sftp" ∧
    (build_protocol_dict hostSftpPort "sftp").port = 22 ∧
    claimResolvedPort hostSftpPort "sftp" = 2222 := by
  decide

/-- C4 (amended): username and password resolve to the protocol-specific
value when present and nonempty and fall back to the host-level value
otherwise, for every protocol; the port honours the
protocol-specific-then-host-level fallback (nonzero values) only for
ssh, with final default 22, while sftp and ftp always get the constant
defaults 22 and 21, ignoring any configured override. -/
theorem build_protocol_dict_resolution (host : Host) (protocol : String)
    (hp : protocol = "ssh" ∨ protocol = "ftp" ∨ protocol = "sftp") :
    (∀ u, (credFor host protocol).username = some u → u ≠ "" →
      (build_protocol_dict host protocol).username = some u) ∧
    ((credFor host protocol).username = none ∨ (credFor host protocol).username = some "" →
      (build_protocol_dict host protocol).username = host.username) ∧
    (∀ w, (credFor host protocol).password = some w → w ≠ "" →
      (build_protocol_dict host protocol).password = some w) ∧
    ((credFor host protocol).password = none ∨ (credFor host protocol).password = some "" →
      (build_protocol_dict host protocol).password = host.password) ∧
    (protocol = "sftp" → (build_protocol_dict host protocol).port = 22) ∧
    (protocol = "ftp" → (build_protocol_dict host protocol).port = 21) ∧
    (protocol = "ssh" →
      (∀ n, (credFor host protocol).port = some n → n ≠ 0 →
        (build_protocol_dict host protocol).port = n) ∧
      (((credFor host protocol).port = none ∨ (credFor host protocol).port = some 0) →
        (∀ m, host.port = some m → m ≠ 0 → (build_protocol_dict host protocol).port = m) ∧
        ((host.port = none ∨ host.port = some 0) →
          (build_protocol_dict host protocol).port = 22))) := by
  refine ⟨?_, ?_, ?_, ?_, ?_, ?_, ?_⟩
  · intro u hu hne
    simp [build_protocol_dict, hu, pyOrStr, hne]
  · rintro (hu | hu) <;> simp [build_protocol_dict, hu, pyOrStr]
  · intro w hw hne
    simp [build_protocol_dict, hw, pyOrStr, hne]
  · rintro (hw | hw) <;> simp [build_protocol_dict, hw, pyOrStr]
  · rintro rfl
    simp [build_protocol_dict]
  · rintro rfl
    simp [build_protocol_dict]
  · rintro rfl
    refine ⟨?_, ?_⟩
    · intro n hn hne
      simp [build_protocol_dict, hn, pyOrNat, hne]
    · rintro (hn | hn) <;> refine ⟨?_, ?_⟩ <;>
        first
        | (intro m hm hne; simp [build_protocol_dict, hn, hm, pyOrNat, hne])
        | (rintro (hm | hm) <;> simp [build_protocol_dict, hn, hm, pyOrNat])

/-- Witness for C4 (amended): the ssh branch of `hostSshNoPort` has
username "su", no port, and no host-level port, so the theorem yields
username "su" and port 22. -/
theorem build_protocol_dict_resolution_witness :
    ((build_protocol_dict hostSshNoPort "ssh").username = some "su") ∧
    ((build_protocol_dict hostSshNoPort "ssh").port = 22) := by
  have h := build_protocol_dict_resolution hostSshNoPort "ssh" (Or.inl rfl)
  exact ⟨h.1 "su" (by decide) (by decide),
    ((h.2.2.2.2.2.2 rfl).2 (Or.inl (by decide))).2 (Or.inl (by decide))⟩

/-! ### C3: staging failure and the batch -/

def fltNone : DeployFaults :=
  ⟨false, false, false, false, fun _ => false, fun _ => false, false, false, false, false⟩

def depOne : Deployment := ⟨"one", hostProd, "-a", "sftp", ["www"], [], none⟩

def depTwo : Deployment := ⟨"two", hostProd, "-b", "sftp", ["www"], [], none⟩

/-- C3 counterexample: a batch of two deployments where the first one's
staging fails (`shutil.copytree` raised, so `create_tmp_file_structure`
called `sys.exit(1)`).  The process terminates and the second deployment
never runs — the staging failure is not caught and not confined to the
one deployment. -/
theorem runBatch_staging_aborts_all :
    runBatch [(depOne, none, fltNone, []), (depTwo, some (FSTree.dir []), fltNone, [])] =
      ([], true) ∧
    runBatch [(depTwo, some (FSTree.dir []), fltNone, [])] = (["two"], false) := by
  constructor
  · rfl
  · decide

/-- C3 (amended): a staging failure terminates the whole process
(`sys.exit(1)`): no deployment of the batch completes — in particular
every subsequent deployment is skipped — whatever the remaining batch,
the faults, or the remote state are. -/
theorem runBatch_staging_fatal (d : Deployment)
    (rest : List (Deployment × Option FSTree × DeployFaults × RemoteState))
    (flt : DeployFaults) (s0 : RemoteState) (E : List FSPath) :
    runBatch ((d, none, flt, s0) :: rest) = ([], true) ∧
    create_tmp_file_structure none E = none := by
  exact ⟨rfl, rfl⟩

/-! ### C10: duplicate `arg` keys in `build_deployments_dict` -/

/-- Appending a resolvable prefix only changes the accumulator. -/
theorem build_deployments_dict_append (hosts : String → Option Host) :
    ∀ (xs ys : List RawDeployment) (acc : String → Option Deployment),
      (∀ d ∈ xs, (hosts d.host).isSome) →
      ∃ acc2, build_deployments_dict (xs ++ ys) hosts acc =
        build_deployments_dict ys hosts acc2 := by
  intro xs
  induction xs with
  | nil => intro ys acc _; exact ⟨acc, rfl⟩
  | cons x xs ih =>
    intro ys acc hres
    have hx : (hosts x.host).isSome := hres x (by simp)
    obtain ⟨h, hh⟩ := Option.isSome_iff_exists.mp hx
    have hrest : ∀ d ∈ xs, (hosts d.host).isSome := by
      intro d hd; exact hres d (by simp [hd])
    obtain ⟨acc2, hacc2⟩ := ih ys
      (fun a => if a = x.arg then some (resolveDeployment x h) else acc a) hrest
    refine ⟨acc2, ?_⟩
    simpa [build_deployments_dict, hh] using hacc2

/-- A suffix whose `arg`s all differ from `a` leaves the value at `a`
untouched, and resolvable hosts mean the build succeeds. -/
theorem build_deployments_dict_untouched (hosts : String → Option Host) (a : String) :
    ∀ (ds : List RawDeployment) (acc : String → Option Deployment),
      (∀ d ∈ ds, (hosts d.host).isSome) →
      (∀ d ∈ ds, d.arg ≠ a) →
      ∃ m, build_deployments_dict ds hosts acc = some m ∧ m a = acc a := by
  intro ds
  induction ds with
  | nil => intro acc _ _; exact ⟨acc, rfl, rfl⟩
  | cons x xs ih =>
    intro acc hres harg
    have hx : (hosts x.host).isSome := hres x (by simp)
    obtain ⟨h, hh⟩ := Option.isSome_iff_exists.mp hx
    obtain ⟨m, hm, hma⟩ := ih
      (fun b => if b = x.arg then some (resolveDeployment x h) else acc b)
      (fun d hd => hres d (by simp [hd])) (fun d hd => harg d (by simp [hd]))
    refine ⟨m, ?_, ?_⟩
    · simpa [build_deployments_dict, hh] using hm
    · have hxa : x.arg ≠ a := harg x (by simp)
      rw [hma, if_neg (fun hc : a = x.arg => hxa hc.symm)]

/-- C10: when two deployments declare the same `arg`, building the
deployments dict raises no error; the dict keys deployments by `arg`, so
the later deployment overwrites the earlier one, which therefore can
never be selected. -/
theorem build_deployments_dict_later_wins
    (pre post : List RawDeployment) (dEarly dLate : RawDeployment)
    (hosts : String → Option Host) (h2 : Host)
    (_hmem : dEarly ∈ pre) (_harg : dEarly.arg = dLate.arg)
    (hpost : ∀ d ∈ post, d.arg ≠ dLate.arg)
    (hres : ∀ d ∈ pre ++ dLate :: post, (hosts d.host).isSome)
    (hh2 : hosts dLate.host = some h2) :
    ∃ m, build_deployments_dict (pre ++ dLate :: post) hosts (fun _ => none) = some m ∧
      m dLate.arg = some (resolveDeployment dLate h2) := by
  have hpre : ∀ d ∈ pre, (hosts d.host).isSome := by
    intro d hd; exact hres d (by simp [hd])
  obtain ⟨acc2, hacc2⟩ :=
    build_deployments_dict_append hosts pre (dLate :: post) (fun _ => none) hpre
  have hpostres : ∀ d ∈ post, (hosts d.host).isSome := by
    intro d hd; exact hres d (by simp [hd])
  obtain ⟨m, hm, hma⟩ := build_deployments_dict_untouched hosts dLate.arg post
    (fun b => if b = dLate.arg then some (resolveDeployment dLate h2) else acc2 b)
    hpostres hpost
  refine ⟨m, ?_, ?_⟩
  · rw [hacc2]
    simpa [build_deployments_dict, hh2] using hm
  · simpa using hma

def rdFirst : RawDeployment := ⟨"first", "prod", "-w", "sftp", ["www"], [], none⟩

def rdSecond : RawDeployment := ⟨"second", "prod", "-w", "ftp", ["www"], [], none⟩

def hostsOnlyProd : String → Option Host :=
  fun a => if a = "prod" then some hostProd else none

/-- Witness for C10: two deployments both using arg `-w`; the dict maps
`-w` to the second one. -/
theorem build_deployments_dict_later_wins_witness :
    ∃ m, build_deployments_dict ([rdFirst] ++ rdSecond :: []) hostsOnlyProd
        (fun _ => none) = some m ∧
      m rdSecond.arg = some (resolveDeployment rdSecond hostProd) := by
  exact build_deployments_dict_later_wins [rdFirst] [] rdFirst rdSecond hostsOnlyProd
    hostProd (by simp) rfl (by simp) (by intro d hd; fin_cases hd <;> decide)
    (by decide)

/-! ### Upload lemmas -/

theorem remote_dir_exists_sftp_iff (s : RemoteState) (p : FSPath) :
    remote_dir_exists_sftp s p = true ↔ p ∈ s := by
  simp [remote_dir_exists_sftp, List.contains, List.elem_eq_mem]

theorem remote_dir_exists_ftp_iff (s : RemoteState) (p : FSPath) :
    remote_dir_exists_ftp s p = true ↔ p ∈ s := by
  simp [remote_dir_exists_ftp, List.contains, List.elem_eq_mem]


/-- Induction motive (tree side) for `sftp_upload` without directory
creation faults: the call on a directory never raises and attempts every
file below it. -/
def sftpNoMfMotiveT (pf : FSPath → Bool) (t : FSTree) (rd : FSPath) (s : RemoteState) : Prop :=
  ∀ es2, t = FSTree.dir es2 →
    (sftp_upload pf (fun _ => false) t rd s).raised = false ∧
    ∀ q ∈ filePathsItems es2,
      Event.put (rd ++ q) (!pf (rd ++ q)) ∈ (sftp_upload pf (fun _ => false) t rd s).events

/-- Induction motive (listing side) for `sftp_items` without directory
creation faults. -/
def sftpNoMfMotiveL (pf : FSPath → Bool) (items : List (String × FSTree)) (rd : FSPath)
    (s : RemoteState) : Prop :=
  (sftp_items pf (fun _ => false) items rd s).raised = false ∧
  ∀ q ∈ filePathsItems items,
    Event.put (rd ++ q) (!pf (rd ++ q)) ∈ (sftp_items pf (fun _ => false) items rd s).events

/-- Without directory-creation faults, `sftp_upload` on a directory never
raises and attempts a store for every file of the local tree, whatever
the per-file store faults are. -/
theorem sftp_upload_no_mkdir_faults (pf : FSPath → Bool) :
    (∀ (t : FSTree) (rd : FSPath) (s : RemoteState), sftpNoMfMotiveT pf t rd s) ∧
    (∀ (items : List (String × FSTree)) (rd : FSPath) (s : RemoteState),
      sftpNoMfMotiveL pf items rd s) := by
  apply sftp_upload.mutual_induct pf (fun _ => false)
  · intro content x s es2 h
    exact absurd h (by simp)
  · intro entries rd s hcond hmf
    exact absurd hmf (by simp)
  · intro entries rd s hcond hmf IH es2 heq
    obtain ⟨IH1, IH2⟩ := IH
    have heq2 : es2 = entries := by injection heq.symm
    subst heq2
    constructor
    · simp only [sftp_upload]
      rw [if_pos hcond, if_neg (by simp)]
      exact IH1
    · intro q hq
      simp only [sftp_upload]
      rw [if_pos hcond, if_neg (by simp)]
      exact List.mem_cons_of_mem _ (IH2 q hq)
  · intro entries rd s hcond IH es2 heq
    have heq2 : es2 = entries := by injection heq.symm
    subst heq2
    obtain ⟨IH1, IH2⟩ := IH
    constructor
    · simp only [sftpNoMfMotiveT, sftp_upload]
      rw [if_neg hcond]
      exact IH1
    · intro q hq
      simp only [sftp_upload]
      rw [if_neg hcond]
      exact IH2 q hq
  · intro x s
    constructor
    · simp [sftp_items]
    · intro q hq
      simp [filePathsItems] at hq
  · intro name content rest rd s IH
    obtain ⟨IH1, IH2⟩ := IH
    constructor
    · simp only [sftp_items]
      exact IH1
    · intro q hq
      simp only [filePathsItems, filePathsT, List.map, List.mem_append,
        List.mem_singleton] at hq
      rcases hq with hq | hq
      · subst hq
        simp only [sftp_items]
        exact List.mem_cons_self _ _
      · simp only [sftp_items]
        exact List.mem_cons_of_mem _ (IH2 q hq)
  · intro name es rest rd s p created s1 rsub hraised IH1
    exfalso
    obtain ⟨h1, _⟩ := IH1 es rfl
    rw [h1] at hraised
    exact Bool.false_ne_true hraised
  · intro name es rest rd s p created s1 rsub hnr IH1 IH2
    obtain ⟨IHa, IHb⟩ := IH1 es rfl
    obtain ⟨IHc, IHd⟩ := IH2
    unfold_let rsub s1 created p at hnr IHa IHb IHc IHd
    constructor
    · show (sftp_items pf (fun _ => false) ((name, FSTree.dir es) :: rest) rd s).raised = false
      simp only [sftp_items]
      rw [if_neg hnr]
      exact IHc
    · intro q hq
      show Event.put (rd ++ q) (!pf (rd ++ q)) ∈
        (sftp_items pf (fun _ => false) ((name, FSTree.dir es) :: rest) rd s).events
      simp only [sftp_items]
      rw [if_neg hnr]
      simp only [filePathsItems, filePathsT, List.mem_append, List.mem_map] at hq
      rcases hq with ⟨q2, hq2, rfl⟩ | hq
      · refine List.mem_cons_of_mem _ (List.mem_append_left _ ?_)
        have hx := IHb q2 hq2
        have hre : (rd ++ [name]) ++ q2 = rd ++ name :: q2 := by
          simp [List.append_assoc]
        rw [← hre]
        exact hx
      · exact List.mem_cons_of_mem _ (List.mem_append_right _ (IHd q hq))

/-- Induction motive (tree side) for `ftp_upload` without directory
creation faults. -/
def ftpNoMfMotiveT (pf : FSPath → Bool) (t : FSTree) (rd : FSPath) (s : RemoteState) : Prop :=
  ∀ es2, t = FSTree.dir es2 →
    (ftp_upload pf (fun _ => false) t rd s).raised = false ∧
    ∀ q ∈ filePathsItems es2,
      Event.put (rd ++ q) (!pf (rd ++ q)) ∈ (ftp_upload pf (fun _ => false) t rd s).events

/-- Induction motive (listing side) for `ftp_items` without directory
creation faults. -/
def ftpNoMfMotiveL (pf : FSPath → Bool) (items : List (String × FSTree)) (rd : FSPath)
    (s : RemoteState) : Prop :=
  (ftp_items pf (fun _ => false) items rd s).raised = false ∧
  ∀ q ∈ filePathsItems items,
    Event.put (rd ++ q) (!pf (rd ++ q)) ∈ (ftp_items pf (fun _ => false) items rd s).events

/-- Without directory-creation faults, `ftp_upload` on a directory never
raises and attempts a store for every file of the local tree. -/
theorem ftp_upload_no_mkdir_faults (pf : FSPath → Bool) :
    (∀ (t : FSTree) (rd : FSPath) (s : RemoteState), ftpNoMfMotiveT pf t rd s) ∧
    (∀ (items : List (String × FSTree)) (rd : FSPath) (s : RemoteState),
      ftpNoMfMotiveL pf items rd s) := by
  apply ftp_upload.mutual_induct pf (fun _ => false)
  · intro content x s es2 h
    exact absurd h (by simp)
  · intro entries rd s hcond hmf
    exact absurd hmf (by simp)
  · intro entries rd s hcond hmf IH es2 heq
    obtain ⟨IH1, IH2⟩ := IH
    have heq2 : es2 = entries := by injection heq.symm
    subst heq2
    constructor
    · simp only [ftp_upload]
      rw [if_pos hcond, if_neg (by simp)]
      exact IH1
    · intro q hq
      simp only [ftp_upload]
      rw [if_pos hcond, if_neg (by simp)]
      exact List.mem_cons_of_mem _ (IH2 q hq)
  · intro entries rd s hcond IH es2 heq
    have heq2 : es2 = entries := by injection heq.symm
    subst heq2
    obtain ⟨IH1, IH2⟩ := IH
    constructor
    · simp only [ftpNoMfMotiveT, ftp_upload]
      rw [if_neg hcond]
      exact IH1
    · intro q hq
      simp only [ftp_upload]
      rw [if_neg hcond]
      exact IH2 q hq
  · intro x s
    constructor
    · simp [ftp_items]
    · intro q hq
      simp [filePathsItems] at hq
  · intro name content rest rd s IH
    obtain ⟨IH1, IH2⟩ := IH
    constructor
    · simp only [ftp_items]
      exact IH1
    · intro q hq
      simp only [filePathsItems, filePathsT, List.map, List.mem_append,
        List.mem_singleton] at hq
      rcases hq with hq | hq
      · subst hq
        simp only [ftp_items]
        exact List.mem_cons_self _ _
      · simp only [ftp_items]
        exact List.mem_cons_of_mem _ (IH2 q hq)
  · intro name es rest rd s p created s1 rsub hraised IH1
    exfalso
    obtain ⟨h1, _⟩ := IH1 es rfl
    rw [h1] at hraised
    exact Bool.false_ne_true hraised
  · intro name es rest rd s p created s1 rsub hnr IH1 IH2
    obtain ⟨IHa, IHb⟩ := IH1 es rfl
    obtain ⟨IHc, IHd⟩ := IH2
    unfold_let rsub s1 created p at hnr IHa IHb IHc IHd
    constructor
    · show (ftp_items pf (fun _ => false) ((name, FSTree.dir es) :: rest) rd s).raised = false
      simp only [ftp_items]
      rw [if_neg hnr]
      exact IHc
    · intro q hq
      show Event.put (rd ++ q) (!pf (rd ++ q)) ∈
        (ftp_items pf (fun _ => false) ((name, FSTree.dir es) :: rest) rd s).events
      simp only [ftp_items]
      rw [if_neg hnr]
      simp only [filePathsItems, filePathsT, List.mem_append, List.mem_map] at hq
      rcases hq with ⟨q2, hq2, rfl⟩ | hq
      · refine List.mem_cons_of_mem _ (List.mem_append_left _ ?_)
        have hx := IHb q2 hq2
        have hre : (rd ++ [name]) ++ q2 = rd ++ name :: q2 := by
          simp [List.append_assoc]
        rw [← hre]
        exact hx
      · exact List.mem_cons_of_mem _ (List.mem_append_right _ (IHd q hq))

/-! ### C7: per-item upload faults -/

def pfFalse : FSPath → Bool := fun _ => false

def treeC7 : FSTree := .dir [("d", .dir []), ("f", .file 0)]

def mfOnD : FSPath → Bool := fun p => p == ["r", "d"]

/-- C7 counterexample: a tree with a directory `d` whose remote creation
persistently fails, followed by a file `f`.  The creation failure inside
the loop is caught and logged, but the recursive call retries the
creation outside any `try`; the retry raises, the whole upload aborts,
and `f` is never attempted — contradicting the claim that a single
subdirectory-creation failure leaves every other file attempted. -/
theorem upload_mkdir_fault_aborts_traversal :
    (sftp_upload pfFalse mfOnD treeC7 ["r"] [["r"]]).raised = true ∧
    ["f"] ∈ filePathsT treeC7 ∧
    Event.put ["r", "f"] true ∉ (sftp_upload pfFalse mfOnD treeC7 ["r"] [["r"]]).events ∧
    Event.put ["r", "f"] false ∉ (sftp_upload pfFalse mfOnD treeC7 ["r"] [["r"]]).events ∧
    (ftp_upload pfFalse mfOnD treeC7 ["r"] [["r"]]).raised = true ∧
    Event.put ["r", "f"] true ∉ (ftp_upload pfFalse mfOnD treeC7 ["r"] [["r"]]).events ∧
    Event.put ["r", "f"] false ∉ (ftp_upload pfFalse mfOnD treeC7 ["r"] [["r"]]).events := by
  decide

/-- C7 (amended): a failing *file store* is caught and logged and every
other file of the tree is still attempted, over both FTP and SFTP, for
any set of failing files; but this only holds when no directory
creation fails — a persistently failing subdirectory creation aborts the
remaining traversal (see the counterexample). -/
theorem upload_file_faults_nonfatal (pf mf : FSPath → Bool)
    (es : List (String × FSTree)) (rd : FSPath) (s : RemoteState)
    (hm : ∀ p, mf p = false) :
    ((sftp_upload pf mf (FSTree.dir es) rd s).raised = false ∧
      ∀ q ∈ filePathsItems es,
        Event.put (rd ++ q) (!pf (rd ++ q)) ∈ (sftp_upload pf mf (FSTree.dir es) rd s).events) ∧
    ((ftp_upload pf mf (FSTree.dir es) rd s).raised = false ∧
      ∀ q ∈ filePathsItems es,
        Event.put (rd ++ q) (!pf (rd ++ q)) ∈ (ftp_upload pf mf (FSTree.dir es) rd s).events) := by
  have hmf : mf = fun _ => false := funext hm
  subst hmf
  exact ⟨(sftp_upload_no_mkdir_faults pf).1 (FSTree.dir es) rd s es rfl,
    (ftp_upload_no_mkdir_faults pf).1 (FSTree.dir es) rd s es rfl⟩

def pfOnF : FSPath → Bool := fun p => p == ["r", "f"]

/-- Witness for C7 (amended): file `f`'s store fails, file `g` is still
attempted (and `f` itself was attempted, with a failure recorded). -/
theorem upload_file_faults_nonfatal_witness :
    ((sftp_upload pfOnF pfFalse (FSTree.dir [("f", FSTree.file 0), ("g", FSTree.file 1)])
        ["r"] []).raised = false ∧
      ∀ q ∈ filePathsItems [("f", FSTree.file 0), ("g", FSTree.file 1)],
        Event.put (["r"] ++ q) (!pfOnF (["r"] ++ q)) ∈
          (sftp_upload pfOnF pfFalse (FSTree.dir [("f", FSTree.file 0), ("g", FSTree.file 1)])
            ["r"] []).events) ∧
    ((ftp_upload pfOnF pfFalse (FSTree.dir [("f", FSTree.file 0), ("g", FSTree.file 1)])
        ["r"] []).raised = false ∧
      ∀ q ∈ filePathsItems [("f", FSTree.file 0), ("g", FSTree.file 1)],
        Event.put (["r"] ++ q) (!pfOnF (["r"] ++ q)) ∈
          (ftp_upload pfOnF pfFalse (FSTree.dir [("f", FSTree.file 0), ("g", FSTree.file 1)])
            ["r"] []).events) :=
  upload_file_faults_nonfatal pfOnF pfFalse [("f", FSTree.file 0), ("g", FSTree.file 1)]
    ["r"] [] (fun _ => rfl)

/-! ### C8 lemmas: uploading onto an already-populated remote -/

/-- The remote path an event touched. -/
def eventPath : Event → FSPath
  | .put p _ => p
  | .mkdir p _ => p

/-- Induction motive (tree side): events of `sftp_upload` touch paths at
least as long as the target directory. -/
def sftpLenMotiveT (pf mf : FSPath → Bool) (t : FSTree) (rd : FSPath) (s : RemoteState) : Prop :=
  ∀ e ∈ (sftp_upload pf mf t rd s).events, rd.length ≤ (eventPath e).length

/-- Induction motive (listing side): events of `sftp_items` touch paths
strictly below the target directory. -/
def sftpLenMotiveL (pf mf : FSPath → Bool) (items : List (String × FSTree)) (rd : FSPath)
    (s : RemoteState) : Prop :=
  ∀ e ∈ (sftp_items pf mf items rd s).events, rd.length < (eventPath e).length

theorem sftp_upload_event_lengths (pf mf : FSPath → Bool) :
    (∀ (t : FSTree) (rd : FSPath) (s : RemoteState), sftpLenMotiveT pf mf t rd s) ∧
    (∀ (items : List (String × FSTree)) (rd : FSPath) (s : RemoteState),
      sftpLenMotiveL pf mf items rd s) := by
  apply sftp_upload.mutual_induct pf mf
  · intro content x s e he
    simp [sftp_upload] at he
  · intro entries rd s hcond hmf e he
    simp only [sftp_upload] at he
    rw [if_pos hcond, if_pos hmf] at he
    simp only [List.mem_singleton] at he
    subst he
    simp [eventPath]
  · intro entries rd s hcond hmf IH e he
    simp only [sftp_upload] at he
    rw [if_pos hcond, if_neg hmf] at he
    simp only [List.mem_cons] at he
    rcases he with rfl | he
    · simp [eventPath]
    · exact Nat.le_of_lt (IH e he)
  · intro entries rd s hcond IH e he
    simp only [sftp_upload] at he
    rw [if_neg hcond] at he
    exact Nat.le_of_lt (IH e he)
  · intro x s e he
    simp [sftp_items] at he
  · intro name content rest rd s IH e he
    simp only [sftp_items, List.mem_cons] at he
    rcases he with rfl | he
    · simp [eventPath]
    · exact IH e he
  · intro name es rest rd s p created s1 rsub hraised IH1 e he
    unfold_let rsub s1 created p at hraised IH1
    show rd.length < (eventPath e).length
    simp only [sftp_items] at he
    rw [if_pos hraised] at he
    simp only [List.mem_cons] at he
    rcases he with rfl | he
    · simp [eventPath]
    · have := IH1 e he
      have hlen : ((rd ++ [name] : FSPath)).length = rd.length + 1 := by simp
      omega
  · intro name es rest rd s p created s1 rsub hnr IH1 IH2 e he
    unfold_let rsub s1 created p at hnr IH1 IH2
    show rd.length < (eventPath e).length
    simp only [sftp_items] at he
    rw [if_neg hnr] at he
    simp only [List.mem_cons, List.mem_append] at he
    rcases he with rfl | he | he
    · simp [eventPath]
    · have := IH1 e he
      have hlen : ((rd ++ [name] : FSPath)).length = rd.length + 1 := by simp
      omega
    · exact IH2 e he

/-- Induction motive (tree side) for `sftp_upload` against a remote
where the target and all subdirectories already exist: the upload
returns normally, creates nothing, and logs a failed creation attempt
for every subdirectory. -/
def sftpExistMotiveT (pf mf : FSPath → Bool) (t : FSTree) (rd : FSPath) (s : RemoteState) :
    Prop :=
  ∀ es2, t = FSTree.dir es2 → rd ∈ s →
    (∀ q ∈ dirPathsItems es2, rd ++ q ∈ s) →
    (sftp_upload pf mf t rd s).raised = false ∧
    (sftp_upload pf mf t rd s).state = s ∧
    ∀ q ∈ dirPathsItems es2, Event.mkdir (rd ++ q) false ∈ (sftp_upload pf mf t rd s).events

/-- Induction motive (listing side) for `sftp_items` against a fully
populated remote. -/
def sftpExistMotiveL (pf mf : FSPath → Bool) (items : List (String × FSTree)) (rd : FSPath)
    (s : RemoteState) : Prop :=
  (∀ q ∈ dirPathsItems items, rd ++ q ∈ s) →
  (sftp_items pf mf items rd s).raised = false ∧
  (sftp_items pf mf items rd s).state = s ∧
  ∀ q ∈ dirPathsItems items, Event.mkdir (rd ++ q) false ∈ (sftp_items pf mf items rd s).events

theorem sftp_upload_all_exist (pf mf : FSPath → Bool) :
    (∀ (t : FSTree) (rd : FSPath) (s : RemoteState), sftpExistMotiveT pf mf t rd s) ∧
    (∀ (items : List (String × FSTree)) (rd : FSPath) (s : RemoteState),
      sftpExistMotiveL pf mf items rd s) := by
  apply sftp_upload.mutual_induct pf mf
  · intro content x s es2 h
    exact absurd h (by simp)
  · intro entries rd s hcond hmf es2 heq hrd hsub
    have hex : remote_dir_exists_sftp s rd = true := (remote_dir_exists_sftp_iff s rd).mpr hrd
    rw [hex] at hcond
    simp at hcond
  · intro entries rd s hcond hmf IH es2 heq hrd hsub
    have hex : remote_dir_exists_sftp s rd = true := (remote_dir_exists_sftp_iff s rd).mpr hrd
    rw [hex] at hcond
    simp at hcond
  · intro entries rd s hcond IH es2 heq hrd hsub
    have heq2 : es2 = entries := by injection heq.symm
    subst heq2
    obtain ⟨IH1, IH2, IH3⟩ := IH hsub
    refine ⟨?_, ?_, ?_⟩
    · simp only [sftp_upload]
      rw [if_neg hcond]
      exact IH1
    · simp only [sftp_upload]
      rw [if_neg hcond]
      exact IH2
    · intro q hq
      simp only [sftp_upload]
      rw [if_neg hcond]
      exact IH3 q hq
  · intro x s hsub
    refine ⟨by simp [sftp_items], by simp [sftp_items], ?_⟩
    intro q hq
    simp [dirPathsItems] at hq
  · intro name content rest rd s IH hsub
    simp only [dirPathsItems] at hsub
    obtain ⟨IH1, IH2, IH3⟩ := IH hsub
    refine ⟨?_, ?_, ?_⟩
    · simp only [sftp_items]
      exact IH1
    · simp only [sftp_items]
      exact IH2
    · intro q hq
      simp only [dirPathsItems] at hq
      simp only [sftp_items]
      exact List.mem_cons_of_mem _ (IH3 q hq)
  · intro name es rest rd s p created s1 rsub hraised IH1
    intro hsub
    exfalso
    unfold_let rsub s1 created p at hraised IH1
    have hp : rd ++ [name] ∈ s := by
      have : [name] ∈ dirPathsItems ((name, FSTree.dir es) :: rest) := by
        simp [dirPathsItems]
      exact hsub [name] this
    have hex : remote_dir_exists_sftp s (rd ++ [name]) = true :=
      (remote_dir_exists_sftp_iff s (rd ++ [name])).mpr hp
    have hsub2 : ∀ q ∈ dirPathsItems es, (rd ++ [name]) ++ q ∈ s := by
      intro q hq
      have hmem : name :: q ∈ dirPathsItems ((name, FSTree.dir es) :: rest) := by
        simp only [dirPathsItems]
        exact List.mem_cons_of_mem _
          (List.mem_append_left _ (List.mem_map_of_mem _ hq))
      have := hsub (name :: q) hmem
      simpa [List.append_assoc] using this
    obtain ⟨h1, _, _⟩ := IH1 es rfl (by simpa [hex] using hp) (by simpa [hex] using hsub2)
    rw [hex] at hraised h1
    simp only [Bool.not_true, Bool.false_and] at hraised h1
    rw [h1] at hraised
    exact Bool.false_ne_true hraised
  · intro name es rest rd s p created s1 rsub hnr IH1 IH2
    intro hsub
    unfold_let rsub s1 created p at hnr IH1 IH2
    have hp : rd ++ [name] ∈ s := by
      have : [name] ∈ dirPathsItems ((name, FSTree.dir es) :: rest) := by
        simp [dirPathsItems]
      exact hsub [name] this
    have hex : remote_dir_exists_sftp s (rd ++ [name]) = true :=
      (remote_dir_exists_sftp_iff s (rd ++ [name])).mpr hp
    have hsub2 : ∀ q ∈ dirPathsItems es, (rd ++ [name]) ++ q ∈ s := by
      intro q hq
      have hmem : name :: q ∈ dirPathsItems ((name, FSTree.dir es) :: rest) := by
        simp only [dirPathsItems]
        exact List.mem_cons_of_mem _
          (List.mem_append_left _ (List.mem_map_of_mem _ hq))
      have := hsub (name :: q) hmem
      simpa [List.append_assoc] using this
    have hsubrest : ∀ q ∈ dirPathsItems rest, rd ++ q ∈ s := by
      intro q hq
      have hmem : q ∈ dirPathsItems ((name, FSTree.dir es) :: rest) := by
        simp only [dirPathsItems]
        exact List.mem_cons_of_mem _ (List.mem_append_right _ hq)
      exact hsub q hmem
    rw [hex] at hnr IH1 IH2
    simp only [Bool.not_true, Bool.false_and, if_neg (Bool.false_ne_true)] at hnr IH1 IH2
    obtain ⟨ha, hb, hc⟩ := IH1 es rfl hp hsub2
    rw [hb] at IH2
    obtain ⟨hd, he2, hf⟩ := IH2 hsubrest
    refine ⟨?_, ?_, ?_⟩
    · show (sftp_items pf mf ((name, FSTree.dir es) :: rest) rd s).raised = false
      simp only [sftp_items, hex, Bool.not_true, Bool.false_and, if_neg (Bool.false_ne_true)]
      rw [if_neg (by rw [ha]; exact Bool.false_ne_true)]
      rw [hb]
      exact hd
    · show (sftp_items pf mf ((name, FSTree.dir es) :: rest) rd s).state = s
      simp only [sftp_items, hex, Bool.not_true, Bool.false_and, if_neg (Bool.false_ne_true)]
      rw [if_neg (by rw [ha]; exact Bool.false_ne_true)]
      rw [hb]
      exact he2
    · intro q hq
      show Event.mkdir (rd ++ q) false ∈
        (sftp_items pf mf ((name, FSTree.dir es) :: rest) rd s).events
      simp only [sftp_items, hex, Bool.not_true, Bool.false_and, if_neg (Bool.false_ne_true)]
      rw [if_neg (by rw [ha]; exact Bool.false_ne_true)]
      simp only [dirPathsItems, List.mem_cons, List.mem_append, List.mem_map] at hq
      rcases hq with (rfl | ⟨q2, hq2, rfl⟩) | hq
      · exact List.mem_cons_self _ _
      · refine List.mem_cons_of_mem _ (List.mem_append_left _ ?_)
        have hx := hc q2 hq2
        have hre : (rd ++ [name]) ++ q2 = rd ++ name :: q2 := by
          simp [List.append_assoc]
        rw [← hre]
        exact hx
      · refine List.mem_cons_of_mem _ (List.mem_append_right _ ?_)
        rw [hb]
        exact hf q hq

/-- Induction motive (tree side): events of `ftp_upload` touch paths at
least as long as the target directory. -/
def ftpLenMotiveT (pf mf : FSPath → Bool) (t : FSTree) (rd : FSPath) (s : RemoteState) : Prop :=
  ∀ e ∈ (ftp_upload pf mf t rd s).events, rd.length ≤ (eventPath e).length

/-- Induction motive (listing side): events of `ftp_items` touch paths
strictly below the target directory. -/
def ftpLenMotiveL (pf mf : FSPath → Bool) (items : List (String × FSTree)) (rd : FSPath)
    (s : RemoteState) : Prop :=
  ∀ e ∈ (ftp_items pf mf items rd s).events, rd.length < (eventPath e).length

theorem ftp_upload_event_lengths (pf mf : FSPath → Bool) :
    (∀ (t : FSTree) (rd : FSPath) (s : RemoteState), ftpLenMotiveT pf mf t rd s) ∧
    (∀ (items : List (String × FSTree)) (rd : FSPath) (s : RemoteState),
      ftpLenMotiveL pf mf items rd s) := by
  apply ftp_upload.mutual_induct pf mf
  · intro content x s e he
    simp [ftp_upload] at he
  · intro entries rd s hcond hmf e he
    simp only [ftp_upload] at he
    rw [if_pos hcond, if_pos hmf] at he
    simp only [List.mem_singleton] at he
    subst he
    simp [eventPath]
  · intro entries rd s hcond hmf IH e he
    simp only [ftp_upload] at he
    rw [if_pos hcond, if_neg hmf] at he
    simp only [List.mem_cons] at he
    rcases he with rfl | he
    · simp [eventPath]
    · exact Nat.le_of_lt (IH e he)
  · intro entries rd s hcond IH e he
    simp only [ftp_upload] at he
    rw [if_neg hcond] at he
    exact Nat.le_of_lt (IH e he)
  · intro x s e he
    simp [ftp_items] at he
  · intro name content rest rd s IH e he
    simp only [ftp_items, List.mem_cons] at he
    rcases he with rfl | he
    · simp [eventPath]
    · exact IH e he
  · intro name es rest rd s p created s1 rsub hraised IH1 e he
    unfold_let rsub s1 created p at hraised IH1
    show rd.length < (eventPath e).length
    simp only [ftp_items] at he
    rw [if_pos hraised] at he
    simp only [List.mem_cons] at he
    rcases he with rfl | he
    · simp [eventPath]
    · have := IH1 e he
      have hlen : ((rd ++ [name] : FSPath)).length = rd.length + 1 := by simp
      omega
  · intro name es rest rd s p created s1 rsub hnr IH1 IH2 e he
    unfold_let rsub s1 created p at hnr IH1 IH2
    show rd.length < (eventPath e).length
    simp only [ftp_items] at he
    rw [if_neg hnr] at he
    simp only [List.mem_cons, List.mem_append] at he
    rcases he with rfl | he | he
    · simp [eventPath]
    · have := IH1 e he
      have hlen : ((rd ++ [name] : FSPath)).length = rd.length + 1 := by simp
      omega
    · exact IH2 e he

/-- Induction motive (tree side) for `ftp_upload` against a remote
where the target and all subdirectories already exist: the upload
returns normally, creates nothing, and logs a failed creation attempt
for every subdirectory. -/
def ftpExistMotiveT (pf mf : FSPath → Bool) (t : FSTree) (rd : FSPath) (s : RemoteState) :
    Prop :=
  ∀ es2, t = FSTree.dir es2 → rd ∈ s →
    (∀ q ∈ dirPathsItems es2, rd ++ q ∈ s) →
    (ftp_upload pf mf t rd s).raised = false ∧
    (ftp_upload pf mf t rd s).state = s ∧
    ∀ q ∈ dirPathsItems es2, Event.mkdir (rd ++ q) false ∈ (ftp_upload pf mf t rd s).events

/-- Induction motive (listing side) for `ftp_items` against a fully
populated remote. -/
def ftpExistMotiveL (pf mf : FSPath → Bool) (items : List (String × FSTree)) (rd : FSPath)
    (s : RemoteState) : Prop :=
  (∀ q ∈ dirPathsItems items, rd ++ q ∈ s) →
  (ftp_items pf mf items rd s).raised = false ∧
  (ftp_items pf mf items rd s).state = s ∧
  ∀ q ∈ dirPathsItems items, Event.mkdir (rd ++ q) false ∈ (ftp_items pf mf items rd s).events

theorem ftp_upload_all_exist (pf mf : FSPath → Bool) :
    (∀ (t : FSTree) (rd : FSPath) (s : RemoteState), ftpExistMotiveT pf mf t rd s) ∧
    (∀ (items : List (String × FSTree)) (rd : FSPath) (s : RemoteState),
      ftpExistMotiveL pf mf items rd s) := by
  apply ftp_upload.mutual_induct pf mf
  · intro content x s es2 h
    exact absurd h (by simp)
  · intro entries rd s hcond hmf es2 heq hrd hsub
    have hex : remote_dir_exists_ftp s rd = true := (remote_dir_exists_ftp_iff s rd).mpr hrd
    rw [hex] at hcond
    simp at hcond
  · intro entries rd s hcond hmf IH es2 heq hrd hsub
    have hex : remote_dir_exists_ftp s rd = true := (remote_dir_exists_ftp_iff s rd).mpr hrd
    rw [hex] at hcond
    simp at hcond
  · intro entries rd s hcond IH es2 heq hrd hsub
    have heq2 : es2 = entries := by injection heq.symm
    subst heq2
    obtain ⟨IH1, IH2, IH3⟩ := IH hsub
    refine ⟨?_, ?_, ?_⟩
    · simp only [ftp_upload]
      rw [if_neg hcond]
      exact IH1
    · simp only [ftp_upload]
      rw [if_neg hcond]
      exact IH2
    · intro q hq
      simp only [ftp_upload]
      rw [if_neg hcond]
      exact IH3 q hq
  · intro x s hsub
    refine ⟨by simp [ftp_items], by simp [ftp_items], ?_⟩
    intro q hq
    simp [dirPathsItems] at hq
  · intro name content rest rd s IH hsub
    simp only [dirPathsItems] at hsub
    obtain ⟨IH1, IH2, IH3⟩ := IH hsub
    refine ⟨?_, ?_, ?_⟩
    · simp only [ftp_items]
      exact IH1
    · simp only [ftp_items]
      exact IH2
    · intro q hq
      simp only [dirPathsItems] at hq
      simp only [ftp_items]
      exact List.mem_cons_of_mem _ (IH3 q hq)
  · intro name es rest rd s p created s1 rsub hraised IH1
    intro hsub
    exfalso
    unfold_let rsub s1 created p at hraised IH1
    have hp : rd ++ [name] ∈ s := by
      have : [name] ∈ dirPathsItems ((name, FSTree.dir es) :: rest) := by
        simp [dirPathsItems]
      exact hsub [name] this
    have hex : remote_dir_exists_ftp s (rd ++ [name]) = true :=
      (remote_dir_exists_ftp_iff s (rd ++ [name])).mpr hp
    have hsub2 : ∀ q ∈ dirPathsItems es, (rd ++ [name]) ++ q ∈ s := by
      intro q hq
      have hmem : name :: q ∈ dirPathsItems ((name, FSTree.dir es) :: rest) := by
        simp only [dirPathsItems]
        exact List.mem_cons_of_mem _
          (List.mem_append_left _ (List.mem_map_of_mem _ hq))
      have := hsub (name :: q) hmem
      simpa [List.append_assoc] using this
    obtain ⟨h1, _, _⟩ := IH1 es rfl (by simpa [hex] using hp) (by simpa [hex] using hsub2)
    rw [hex] at hraised h1
    simp only [Bool.not_true, Bool.false_and] at hraised h1
    rw [h1] at hraised
    exact Bool.false_ne_true hraised
  · intro name es rest rd s p created s1 rsub hnr IH1 IH2
    intro hsub
    unfold_let rsub s1 created p at hnr IH1 IH2
    have hp : rd ++ [name] ∈ s := by
      have : [name] ∈ dirPathsItems ((name, FSTree.dir es) :: rest) := by
        simp [dirPathsItems]
      exact hsub [name] this
    have hex : remote_dir_exists_ftp s (rd ++ [name]) = true :=
      (remote_dir_exists_ftp_iff s (rd ++ [name])).mpr hp
    have hsub2 : ∀ q ∈ dirPathsItems es, (rd ++ [name]) ++ q ∈ s := by
      intro q hq
      have hmem : name :: q ∈ dirPathsItems ((name, FSTree.dir es) :: rest) := by
        simp only [dirPathsItems]
        exact List.mem_cons_of_mem _
          (List.mem_append_left _ (List.mem_map_of_mem _ hq))
      have := hsub (name :: q) hmem
      simpa [List.append_assoc] using this
    have hsubrest : ∀ q ∈ dirPathsItems rest, rd ++ q ∈ s := by
      intro q hq
      have hmem : q ∈ dirPathsItems ((name, FSTree.dir es) :: rest) := by
        simp only [dirPathsItems]
        exact List.mem_cons_of_mem _ (List.mem_append_right _ hq)
      exact hsub q hmem
    rw [hex] at hnr IH1 IH2
    simp only [Bool.not_true, Bool.false_and, if_neg (Bool.false_ne_true)] at hnr IH1 IH2
    obtain ⟨ha, hb, hc⟩ := IH1 es rfl hp hsub2
    rw [hb] at IH2
    obtain ⟨hd, he2, hf⟩ := IH2 hsubrest
    refine ⟨?_, ?_, ?_⟩
    · show (ftp_items pf mf ((name, FSTree.dir es) :: rest) rd s).raised = false
      simp only [ftp_items, hex, Bool.not_true, Bool.false_and, if_neg (Bool.false_ne_true)]
      rw [if_neg (by rw [ha]; exact Bool.false_ne_true)]
      rw [hb]
      exact hd
    · show (ftp_items pf mf ((name, FSTree.dir es) :: rest) rd s).state = s
      simp only [ftp_items, hex, Bool.not_true, Bool.false_and, if_neg (Bool.false_ne_true)]
      rw [if_neg (by rw [ha]; exact Bool.false_ne_true)]
      rw [hb]
      exact he2
    · intro q hq
      show Event.mkdir (rd ++ q) false ∈
        (ftp_items pf mf ((name, FSTree.dir es) :: rest) rd s).events
      simp only [ftp_items, hex, Bool.not_true, Bool.false_and, if_neg (Bool.false_ne_true)]
      rw [if_neg (by rw [ha]; exact Bool.false_ne_true)]
      simp only [dirPathsItems, List.mem_cons, List.mem_append, List.mem_map] at hq
      rcases hq with (rfl | ⟨q2, hq2, rfl⟩) | hq
      · exact List.mem_cons_self _ _
      · refine List.mem_cons_of_mem _ (List.mem_append_left _ ?_)
        have hx := hc q2 hq2
        have hre : (rd ++ [name]) ++ q2 = rd ++ name :: q2 := by
          simp [List.append_assoc]
        rw [← hre]
        exact hx
      · refine List.mem_cons_of_mem _ (List.mem_append_right _ ?_)
        rw [hb]
        exact hf q hq

/-! ### C8: idempotent re-upload -/

def treeC8 : FSTree := .dir [("d", .dir [])]

def sC8 : RemoteState := [["r"], ["r", "d"]]

/-- C8 counterexample: re-uploading a tree with one subdirectory `d`
against a remote where both the target and `r/d` already exist.  The
in-loop `mkdir` of the existing subdirectory is attempted anyway (and
its "already exists" failure caught and logged) — no existence check
short-circuits the creation of subdirectories, contradicting the claim
that every remote directory creation is preceded by an existence check. -/
theorem upload_subdir_creation_not_short_circuited :
    remote_dir_exists_sftp sC8 ["r", "d"] = true ∧
    Event.mkdir ["r", "d"] false ∈ (sftp_upload pfFalse pfFalse treeC8 ["r"] sC8).events ∧
    (sftp_upload pfFalse pfFalse treeC8 ["r"] sC8).raised = false ∧
    remote_dir_exists_ftp sC8 ["r", "d"] = true ∧
    Event.mkdir ["r", "d"] false ∈ (ftp_upload pfFalse pfFalse treeC8 ["r"] sC8).events ∧
    (ftp_upload pfFalse pfFalse treeC8 ["r"] sC8).raised = false := by
  decide

/-- C8 (amended): re-running an upload against a fully populated remote
raises no uncaught error over either protocol: the top-level target
directory's creation is short-circuited by its existence check (no
creation of the target is ever attempted), but each subdirectory's
creation is attempted unconditionally and its "already exists" failure
is caught and logged (one failed-creation event per subdirectory). -/
theorem upload_idempotent_populated (pf mf : FSPath → Bool)
    (es : List (String × FSTree)) (rd : FSPath) (s : RemoteState)
    (hrd : rd ∈ s) (hsub : ∀ q ∈ dirPathsItems es, rd ++ q ∈ s) :
    ((sftp_upload pf mf (FSTree.dir es) rd s).raised = false ∧
     (∀ ok, Event.mkdir rd ok ∉ (sftp_upload pf mf (FSTree.dir es) rd s).events) ∧
     (∀ q ∈ dirPathsItems es,
        Event.mkdir (rd ++ q) false ∈ (sftp_upload pf mf (FSTree.dir es) rd s).events)) ∧
    ((ftp_upload pf mf (FSTree.dir es) rd s).raised = false ∧
     (∀ ok, Event.mkdir rd ok ∉ (ftp_upload pf mf (FSTree.dir es) rd s).events) ∧
     (∀ q ∈ dirPathsItems es,
        Event.mkdir (rd ++ q) false ∈ (ftp_upload pf mf (FSTree.dir es) rd s).events)) := by
  have hexS : remote_dir_exists_sftp s rd = true := (remote_dir_exists_sftp_iff s rd).mpr hrd
  have hexF : remote_dir_exists_ftp s rd = true := (remote_dir_exists_ftp_iff s rd).mpr hrd
  obtain ⟨hs1, hs2, hs3⟩ := (sftp_upload_all_exist pf mf).1 (FSTree.dir es) rd s es rfl hrd hsub
  obtain ⟨hf1, hf2, hf3⟩ := (ftp_upload_all_exist pf mf).1 (FSTree.dir es) rd s es rfl hrd hsub
  have hupS : sftp_upload pf mf (FSTree.dir es) rd s = sftp_items pf mf es rd s := by
    simp only [sftp_upload]
    rw [if_neg (by simp [hexS])]
  have hupF : ftp_upload pf mf (FSTree.dir es) rd s = ftp_items pf mf es rd s := by
    simp only [ftp_upload]
    rw [if_neg (by simp [hexF])]
  refine ⟨⟨hs1, ?_, hs3⟩, ⟨hf1, ?_, hf3⟩⟩
  · intro ok hmem
    rw [hupS] at hmem
    have hlt := (sftp_upload_event_lengths pf mf).2 es rd s (Event.mkdir rd ok) hmem
    simp only [eventPath] at hlt
    exact absurd hlt (lt_irrefl _)
  · intro ok hmem
    rw [hupF] at hmem
    have hlt := (ftp_upload_event_lengths pf mf).2 es rd s (Event.mkdir rd ok) hmem
    simp only [eventPath] at hlt
    exact absurd hlt (lt_irrefl _)

/-- Witness for C8 (amended): the concrete populated-remote scenario. -/
theorem upload_idempotent_populated_witness :
    ((sftp_upload pfFalse pfFalse (FSTree.dir [("d", FSTree.dir [])]) ["r"] sC8).raised = false ∧
     (∀ ok, Event.mkdir ["r"] ok ∉
        (sftp_upload pfFalse pfFalse (FSTree.dir [("d", FSTree.dir [])]) ["r"] sC8).events) ∧
     (∀ q ∈ dirPathsItems [("d", FSTree.dir [])],
        Event.mkdir (["r"] ++ q) false ∈
          (sftp_upload pfFalse pfFalse (FSTree.dir [("d", FSTree.dir [])]) ["r"] sC8).events)) ∧
    ((ftp_upload pfFalse pfFalse (FSTree.dir [("d", FSTree.dir [])]) ["r"] sC8).raised = false ∧
     (∀ ok, Event.mkdir ["r"] ok ∉
        (ftp_upload pfFalse pfFalse (FSTree.dir [("d", FSTree.dir [])]) ["r"] sC8).events) ∧
     (∀ q ∈ dirPathsItems [("d", FSTree.dir [])],
        Event.mkdir (["r"] ++ q) false ∈
          (ftp_upload pfFalse pfFalse (FSTree.dir [("d", FSTree.dir [])]) ["r"] sC8).events)) :=
  upload_idempotent_populated pfFalse pfFalse [("d", FSTree.dir [])] ["r"] sC8
    (by decide) (by simp [dirPathsItems, dirPathsT, sC8])

/-! ### Deploy lemmas for C5, C9 and C1 -/

/-- The connection set `deploy` opens, per its source. -/
def openedFor (d : Deployment) : ConnSet :=
  ⟨truthy (d.cmd.getD emptyCmd).ssh_before || truthy (d.cmd.getD emptyCmd).ssh_after,
   d.protocol == "ftp", d.protocol == "sftp"⟩

theorem close_connections_no_faults (o : ConnSet) :
    close_connections o ⟨false, false, false⟩ = o := by
  simp [close_connections]

/-- On a staged tree `deploy` always returns a result record. -/
theorem deploy_total (d : Deployment) (tree : FSTree) (flt : DeployFaults)
    (s0 : RemoteState) : ∃ r, deploy d (some tree) flt s0 = some r := by
  cases hd : deploy d (some tree) flt s0 with
  | some r => exact ⟨r, rfl⟩
  | none =>
    exfalso
    simp only [deploy] at hd
    repeat' split at hd
    all_goals simp at hd

/-- Every exit path of `deploy` reports the same opened-connection set. -/
theorem deploy_opened (d : Deployment) (tree : FSTree) (flt : DeployFaults)
    (s0 : RemoteState) :
    ∀ r, deploy d (some tree) flt s0 = some r → r.opened = openedFor d := by
  intro r hr
  simp only [deploy] at hr
  repeat' split at hr
  all_goals simp only [Option.some.injEq] at hr
  all_goals subst hr
  all_goals rfl

/-- Under failure injections that the source catches (local hooks,
per-file stores) and none that it does not (ssh hooks, directory
creations), `deploy` runs every step and returns the full record. -/
theorem deploy_no_raise (d : Deployment) (es : List (String × FSTree)) (flt : DeployFaults)
    (s0 : RemoteState)
    (hb : flt.sshBeforeFails = false) (ha : flt.sshAfterFails = false)
    (hm : ∀ p, flt.mkdirFails p = false) :
    deploy d (some (FSTree.dir es)) flt s0 =
      some ⟨specDeploySequence d, openedFor d,
        close_connections (openedFor d)
          ⟨flt.closeSshFails, flt.closeFtpFails, flt.closeSftpFails⟩,
        remove_tmp_dir flt.rmTmpFails, false⟩ := by
  have hmf : flt.mkdirFails = fun _ => false := funext hm
  have hS := ((sftp_upload_no_mkdir_faults flt.putFails).1 (FSTree.dir es) d.remote_path s0
    es rfl).1
  have hF := ((ftp_upload_no_mkdir_faults flt.putFails).1 (FSTree.dir es) d.remote_path s0
    es rfl).1
  by_cases hsf : d.protocol = "sftp"
  · simp [deploy, hb, ha, hmf, specDeploySequence, openedFor, hsf, hS]
  · by_cases hft : d.protocol = "ftp"
    · simp [deploy, hb, ha, hmf, specDeploySequence, openedFor, hsf, hft, hF]
    · simp [deploy, hb, ha, hmf, specDeploySequence, openedFor, hsf, hft]

/-! ### C5: exactly the required transports are opened -/

/-- C5: given a deployment whose protocol passed schema validation (the
config schema only admits `ftp` and `sftp`), `deploy` opens SSH exactly
when the protocol is ssh or an ssh hook is configured (the first
disjunct being impossible for a validated protocol), FTP exactly when
the protocol is ftp, and SFTP exactly when the protocol is sftp — under
any fault injection, and never an unused transport. -/
theorem deploy_opens_exactly_required (d : Deployment) (tree : FSTree) (flt : DeployFaults)
    (s0 : RemoteState) (hp : d.protocol = "ftp" ∨ d.protocol = "sftp") :
    ∃ r, deploy d (some tree) flt s0 = some r ∧
      ((r.opened.ssh = true) ↔
        (d.protocol = "ssh" ∨ truthy ((d.cmd.getD emptyCmd).ssh_before) = true ∨
          truthy ((d.cmd.getD emptyCmd).ssh_after) = true)) ∧
      ((r.opened.ftp = true) ↔ d.protocol = "ftp") ∧
      ((r.opened.sftp = true) ↔ d.protocol = "sftp") := by
  obtain ⟨r, hr⟩ := deploy_total d tree flt s0
  refine ⟨r, hr, ?_⟩
  rw [deploy_opened d tree flt s0 r hr]
  rcases hp with h | h <;> simp [openedFor, h, Bool.or_eq_true]

def depWitC5 : Deployment :=
  ⟨"web", hostProd, "-w", "sftp", ["www"], [], some ⟨none, none, none, some "restart app"⟩⟩

/-- Witness for C5: an sftp deployment with only an `ssh_after` hook
opens SSH and SFTP and not FTP. -/
theorem deploy_opens_exactly_required_witness :
    ∃ r, deploy depWitC5 (some (FSTree.dir [])) fltNone [] = some r ∧
      ((r.opened.ssh = true) ↔
        (depWitC5.protocol = "ssh" ∨ truthy ((depWitC5.cmd.getD emptyCmd).ssh_before) = true ∨
          truthy ((depWitC5.cmd.getD emptyCmd).ssh_after) = true)) ∧
      ((r.opened.ftp = true) ↔ depWitC5.protocol = "ftp") ∧
      ((r.opened.sftp = true) ↔ depWitC5.protocol = "sftp") :=
  deploy_opens_exactly_required depWitC5 (FSTree.dir []) fltNone [] (Or.inr rfl)

/-! ### C9: the fixed step order -/

/-- C9: a deployment run executes stage, open connections, local
before-hook, ssh before-hook, transfer, local after-hook, ssh
after-hook, close connections, remove staging directory, in this order,
each hook exactly when configured, and no step is skipped because of a
failure the source catches (failing local hooks and failing file
stores are injected freely here).  The transfer step is present since a
validated protocol is ftp or sftp. -/
theorem deploy_fixed_step_order (d : Deployment) (es : List (String × FSTree))
    (flt : DeployFaults) (s0 : RemoteState)
    (hb : flt.sshBeforeFails = false) (ha : flt.sshAfterFails = false)
    (hm : ∀ p, flt.mkdirFails p = false)
    (hp : d.protocol = "ftp" ∨ d.protocol = "sftp") :
    ∃ r, deploy d (some (FSTree.dir es)) flt s0 = some r ∧
      r.trace = specDeploySequence d ∧ r.raised = false ∧
      DStep.transfer ∈ r.trace := by
  refine ⟨_, deploy_no_raise d es flt s0 hb ha hm, rfl, rfl, ?_⟩
  rcases hp with h | h <;> simp [specDeploySequence, h]

def depWitC9 : Deployment :=
  ⟨"web", hostProd, "-w", "sftp", ["www"], [],
   some ⟨some "make dist", none, some "stop app", none⟩⟩

def fltHooksFail : DeployFaults :=
  ⟨true, false, true, false, fun p => p == ["www", "f"], fun _ => false,
   false, false, false, false⟩

/-- Witness for C9: with a failing local before-hook, a failing local
after-hook and one failing file store, the step sequence is unchanged. -/
theorem deploy_fixed_step_order_witness :
    ∃ r, deploy depWitC9 (some (FSTree.dir [("f", FSTree.file 0)])) fltHooksFail [] = some r ∧
      r.trace = specDeploySequence depWitC9 ∧ r.raised = false ∧
      DStep.transfer ∈ r.trace :=
  deploy_fixed_step_order depWitC9 [("f", FSTree.file 0)] fltHooksFail []
    rfl rfl (fun _ => rfl) (Or.inr rfl)

/-! ### C1: teardown under injected failures -/

def depSshBefore : Deployment :=
  ⟨"web", hostProd, "-w", "sftp", ["www"], [], some ⟨none, none, some "stop app", none⟩⟩

def fltSshBeforeFails : DeployFaults :=
  ⟨false, true, false, false, fun _ => false, fun _ => false, false, false, false, false⟩

/-- C1 counterexample: a failure injected at the PRE-REMOTE step
(`ssh_execute` raising during the `ssh_before` hook) propagates out of
`deploy`: the run ends with the staging directory still present and the
opened SSH and SFTP connections still open — teardown is not
unconditional. -/
theorem deploy_ssh_hook_failure_skips_teardown :
    ∃ r, deploy depSshBefore (some (FSTree.dir [])) fltSshBeforeFails [] = some r ∧
      r.raised = true ∧ r.tmpRemoved = false ∧
      r.opened.ssh = true ∧ r.closed.ssh = false ∧
      r.opened.sftp = true ∧ r.closed.sftp = false ∧
      r.trace = [DStep.stage, DStep.openConn "ssh", DStep.openConn "sftp", DStep.preRemote] := by
  exact ⟨_, rfl, by decide, by decide, by decide, by decide, by decide, by decide, by decide⟩

/-- C1 (amended): teardown (closing every opened connection and
removing the staging directory) does complete whenever the injected
failures are ones the source catches — local hook failures and per-file
store failures — and no teardown-step fault is injected; an ssh-hook or
directory-creation failure escapes `deploy` and skips teardown (see the
counterexample). -/
theorem deploy_teardown_on_caught_failures (d : Deployment) (es : List (String × FSTree))
    (flt : DeployFaults) (s0 : RemoteState)
    (hb : flt.sshBeforeFails = false) (ha : flt.sshAfterFails = false)
    (hm : ∀ p, flt.mkdirFails p = false)
    (hc1 : flt.closeSshFails = false) (hc2 : flt.closeFtpFails = false)
    (hc3 : flt.closeSftpFails = false) (hrm : flt.rmTmpFails = false) :
    ∃ r, deploy d (some (FSTree.dir es)) flt s0 = some r ∧
      r.raised = false ∧ r.tmpRemoved = true ∧ r.closed = r.opened := by
  refine ⟨_, deploy_no_raise d es flt s0 hb ha hm, rfl, ?_, ?_⟩
  · simp [remove_tmp_dir, hrm]
  · simp only [hc1, hc2, hc3]
    exact close_connections_no_faults _

def fltLocalFail : DeployFaults :=
  ⟨true, false, true, false, fun p => p == ["www", "f"], fun _ => false,
   false, false, false, false⟩

/-- Witness for C1 (amended): failing local hooks and one failing file
store still end with all connections closed and the staging directory
removed. -/
theorem deploy_teardown_on_caught_failures_witness :
    ∃ r, deploy depWitC9 (some (FSTree.dir [("f", FSTree.file 0)])) fltLocalFail [] = some r ∧
      r.raised = false ∧ r.tmpRemoved = true ∧ r.closed = r.opened :=
  deploy_teardown_on_caught_failures depWitC9 [("f", FSTree.file 0)] fltLocalFail []
    rfl rfl (fun _ => rfl) rfl rfl rfl rfl

/-! ### C6: the staged tree equals the source minus the exclusions -/

theorem isfile_iff (fs : FS) (p : FSPath) : isfile fs p = true ↔ (p, true) ∈ fs := by
  simp only [isfile, List.any_eq_true, Bool.and_eq_true, beq_iff_eq]
  constructor
  · rintro ⟨⟨e1, e2⟩, he, rfl, rfl⟩
    exact he
  · intro h
    exact ⟨(p, true), h, rfl, rfl⟩

theorem isdir_iff (fs : FS) (p : FSPath) : isdir fs p = true ↔ (p, false) ∈ fs := by
  simp only [isdir, List.any_eq_true, Bool.and_eq_true, beq_iff_eq, Bool.not_eq_true']
  constructor
  · rintro ⟨⟨e1, e2⟩, he, rfl, rfl⟩
    exact he
  · intro h
    exact ⟨(p, false), h, rfl, rfl⟩

/-- On a well-formed staging area, removing one nonempty excluded path
is exactly filtering out the entries it is a prefix of: deleting a file
deletes just that entry (files have no descendants), `rmtree` on a
directory deletes its whole cone, and a missing path removes nothing
(a missing path is a prefix of no listed entry). -/
theorem removeExcluded_eq_filter (fs : FS) (p : FSPath) (hwf : wfFS fs) (hp : p ≠ []) :
    removeExcluded fs p = fs.filter (fun e => !(p.isPrefixOf e.1)) := by
  obtain ⟨hnd, hne, hpc, hfd⟩ := hwf
  unfold removeExcluded
  by_cases hf : isfile fs p = true
  · rw [if_pos hf]
    have hpf : (p, true) ∈ fs := (isfile_iff fs p).mp hf
    apply List.filter_congr
    intro e he
    cases hpre : p.isPrefixOf e.1 with
    | true =>
      have hpr : p <+: e.1 := List.isPrefixOf_iff_prefix.mp hpre
      have heq := hfd (p, true) hpf rfl e he hpr
      subst heq
      simp
    | false =>
      have hne2 : ¬(e.1 = p) := by
        intro hcontra
        rw [hcontra] at hpre
        have hrefl : p.isPrefixOf p = true :=
          List.isPrefixOf_iff_prefix.mpr (List.prefix_refl p)
        rw [hrefl] at hpre
        exact Bool.noConfusion hpre
      simp [hne2]
  · rw [if_neg hf]
    by_cases hd : isdir fs p = true
    · rw [if_pos hd]
    · rw [if_neg hd]
      symm
      apply List.filter_eq_self.mpr
      intro e he
      cases hpre : p.isPrefixOf e.1 with
      | false => rfl
      | true =>
        exfalso
        have hpr : p <+: e.1 := List.isPrefixOf_iff_prefix.mp hpre
        by_cases hep : p = e.1
        · obtain ⟨e1, e2⟩ := e
          subst hep
          cases e2 with
          | true => exact hf ((isfile_iff fs p).mpr he)
          | false => exact hd ((isdir_iff fs p).mpr he)
        · have hlen : p.length < e.1.length := by
            rcases Nat.lt_or_ge p.length e.1.length with h | h
            · exact h
            · exact absurd (hpr.eq_of_length_le h) hep
          have hpos : 0 < p.length := List.length_pos.mpr hp
          have htake : e.1.take p.length = p :=
            (List.prefix_iff_eq_take.mp hpr).symm
          have hmem := hpc e he p.length hlen hpos
          rw [htake] at hmem
          exact hd ((isdir_iff fs p).mpr hmem)

/-- Filtering a prefix cone out of a well-formed staging area leaves a
well-formed staging area. -/
theorem wfFS_filter (fs : FS) (p : FSPath) (hwf : wfFS fs) :
    wfFS (fs.filter (fun e => !(p.isPrefixOf e.1))) := by
  obtain ⟨hnd, hne, hpc, hfd⟩ := hwf
  refine ⟨?_, ?_, ?_, ?_⟩
  · exact hnd.sublist ((List.filter_sublist fs).map Prod.fst)
  · intro e he
    exact hne e (List.mem_of_mem_filter he)
  · intro e he n hlt hpos
    have hef := List.mem_filter.mp he
    have hmem := hpc e hef.1 n hlt hpos
    refine List.mem_filter.mpr ⟨hmem, ?_⟩
    cases hpre : p.isPrefixOf (e.1.take n) with
    | false => rfl
    | true =>
      exfalso
      have h1 : p <+: e.1.take n := List.isPrefixOf_iff_prefix.mp hpre
      have h3 : p <+: e.1 := h1.trans (List.take_prefix n e.1)
      have h4 : p.isPrefixOf e.1 = true := List.isPrefixOf_iff_prefix.mpr h3
      have h5 := hef.2
      rw [h4] at h5
      exact Bool.false_ne_true h5
  · intro e he htrue e2 he2 hpre
    exact hfd e (List.mem_of_mem_filter he) htrue e2 (List.mem_of_mem_filter he2) hpre

/-- The whole exclusion loop equals one filter over all excluded
prefixes. -/
theorem foldl_removeExcluded_eq_filter (E : List FSPath) :
    ∀ (fs : FS), wfFS fs → (∀ p ∈ E, p ≠ []) →
      E.foldl removeExcluded fs =
        fs.filter (fun e => !(E.any (fun p => p.isPrefixOf e.1))) := by
  induction E with
  | nil =>
    intro fs hwf hE
    simp
  | cons p E ih =>
    intro fs hwf hE
    have hp : p ≠ [] := hE p (by simp)
    have hE2 : ∀ q ∈ E, q ≠ [] := fun q hq => hE q (by simp [hq])
    rw [List.foldl_cons, removeExcluded_eq_filter fs p hwf hp,
      ih _ (wfFS_filter fs p hwf) hE2, List.filter_filter]
    apply List.filter_congr
    intro e he
    simp [List.any_cons, Bool.and_comm]

/-- C6: staging produces the source tree with exactly the excluded
cones removed — an entry survives iff no excluded path is a prefix of
its path (a file entry is deleted, a directory entry recursively
deleted) — and an excluded path that does not exist in the copy is
silently skipped, leaving the staging area unchanged. -/
theorem create_tmp_file_structure_filters (fs : FS) (E : List FSPath)
    (hwf : wfFS fs) (hE : ∀ p ∈ E, p ≠ []) :
    create_tmp_file_structure (some fs) E =
      some (fs.filter (fun e => !(E.any (fun p => p.isPrefixOf e.1)))) ∧
    ∀ p, (∀ e ∈ fs, e.1 ≠ p) → removeExcluded fs p = fs := by
  constructor
  · simp only [create_tmp_file_structure]
    rw [foldl_removeExcluded_eq_filter E fs hwf hE]
  · intro p hmiss
    have hf : ¬ isfile fs p = true := by
      intro hcontra
      exact hmiss (p, true) ((isfile_iff fs p).mp hcontra) rfl
    have hd : ¬ isdir fs p = true := by
      intro hcontra
      exact hmiss (p, false) ((isdir_iff fs p).mp hcontra) rfl
    unfold removeExcluded
    rw [if_neg hf, if_neg hd]

def fsWit : FS := [(["a"], true), (["b"], false), (["b", "c"], true), (["d"], false)]

def exWit : List FSPath := [["a"], ["b"], ["x"]]

/-- Witness for C6: a staging area with a file `a`, a directory `b`
holding `b/c`, and a directory `d`; excluding `a`, `b` and the missing
`x` leaves exactly `d`. -/
theorem create_tmp_file_structure_filters_witness :
    wfFS fsWit ∧
    (create_tmp_file_structure (some fsWit) exWit =
      some (fsWit.filter (fun e => !(exWit.any (fun p => p.isPrefixOf e.1)))) ∧
     ∀ p, (∀ e ∈ fsWit, e.1 ≠ p) → removeExcluded fsWit p = fsWit) :=
  ⟨by decide, create_tmp_file_structure_filters fsWit exWit (by decide) (by decide)⟩
